import Mathlib

/-!
Verification development for the cathedral music-list schedule engine
(`src/server.js`).  JavaScript strings are embedded as `List Char`; the
string/regex operations used by the source are translated into executable
Lean functions over that representation, and JavaScript `Date` values are
embedded as `Int` milliseconds since the Unix epoch (all date arithmetic in
the source is done in UTC).  Lines fed to the parser never contain newline
characters (they are produced by splitting on baselines), so the regex
dot is modelled as matching any character.
-/

namespace Cathedral

/-- JavaScript strings, embedded as lists of characters. -/
abbrev Str := List Char

/-- The characters of a Lean string literal, as a `Str`. -/
def strOf (s : String) : Str := s.data

/-- ASCII digit test (JS `\d`). -/
def isDigitC (c : Char) : Bool := decide (48 ≤ c.toNat ∧ c.toNat ≤ 57)

/-- Whitespace test (JS `\s`, restricted to the whitespace code points that
can occur in the normalized bulletin lines). -/
def isSpaceC (c : Char) : Bool :=
  decide (c.toNat = 32 ∨ c.toNat = 9 ∨ c.toNat = 10 ∨ c.toNat = 13 ∨
          c.toNat = 11 ∨ c.toNat = 12 ∨ c.toNat = 160)

/-- ASCII uppercase letter (JS `[A-Z]`). -/
def isUpperC (c : Char) : Bool := decide (65 ≤ c.toNat ∧ c.toNat ≤ 90)

/-- ASCII lowercase letter (JS `[a-z]`). -/
def isLowerC (c : Char) : Bool := decide (97 ≤ c.toNat ∧ c.toNat ≤ 122)

/-- ASCII letter (JS `[A-Za-z]`). -/
def isLetterC (c : Char) : Bool := isUpperC c || isLowerC c

/-- JS regex word character `\w` = `[A-Za-z0-9_]`, used for `\b` boundaries. -/
def isWordC (c : Char) : Bool := isLetterC c || isDigitC c || decide (c = '_')

/-- Embeds `\b` at the start of a match: the previous character (if any) is a
non-word character. -/
def boundaryBefore (prev : Option Char) : Bool :=
  match prev with
  | none => true
  | some c => !isWordC c

/-- Embeds `\b` after a match: the next character (if any) is a non-word character. -/
def boundaryAfter (s : Str) : Bool :=
  match s with
  | [] => true
  | c :: _ => !isWordC c

/-- ASCII lowering (JS `toLowerCase` on the ASCII range). -/
def lowerC (c : Char) : Char :=
  if isUpperC c then Char.ofNat (c.toNat + 32) else c

/-- JS `toLowerCase`. -/
def jsToLower (s : Str) : Str := s.map lowerC

/-- JS `String.prototype.trim`. -/
def jsTrim (s : Str) : Str :=
  ((s.dropWhile isSpaceC).reverse.dropWhile isSpaceC).reverse

/-- Case-sensitive "starts with". -/
def startsWith : Str → Str → Bool
  | [], _ => true
  | _ :: _, [] => false
  | a :: as, b :: bs => (a = b : Bool) && startsWith as bs

/-- Case-insensitive character equality (ASCII). -/
def eqCI (a b : Char) : Bool := lowerC a = lowerC b

/-- Case-insensitive "starts with" (JS `/i` literal matching). -/
def startsWithCI : Str → Str → Bool
  | [], _ => true
  | _ :: _, [] => false
  | a :: as, b :: bs => eqCI a b && startsWithCI as bs

/-- The needle occurs (case-sensitively) at offset `i` of the haystack. -/
def occursAt (needle hay : Str) (i : Nat) : Bool := startsWith needle (hay.drop i)

/-- The needle occurs (case-insensitively) at offset `i` of the haystack. -/
def occursAtCI (needle hay : Str) (i : Nat) : Bool :=
  startsWithCI needle (hay.drop i)

/-- JS `String.prototype.includes`. -/
def containsSub (needle hay : Str) : Bool :=
  (List.range (hay.length + 1)).any (occursAt needle hay)

/-- Case-insensitive substring test (JS `/.../i.test`). -/
def containsCI (needle hay : Str) : Bool :=
  (List.range (hay.length + 1)).any (occursAtCI needle hay)

/-- Length of the leading whitespace run. -/
def wsLen (s : Str) : Nat := (s.takeWhile isSpaceC).length

/-- Value of a digit character. -/
def digitVal (c : Char) : Nat := c.toNat - 48

/-- JS `parseInt`/`Number` on a string of decimal digits. -/
def parseIntStr (s : Str) : Nat := s.foldl (fun n c => 10 * n + digitVal c) 0

/-- The character of a decimal digit. -/
def digitChar (n : Nat) : Char := Char.ofNat (n + 48)

/-- Decimal digits of a natural number, with structural fuel (the fuel is
always at least the number of digits). -/
def natDigitsF : Nat → Nat → Str
  | 0, n => [digitChar (n % 10)]
  | fuel + 1, n =>
    if n < 10 then [digitChar n]
    else natDigitsF fuel (n / 10) ++ [digitChar (n % 10)]

/-- Decimal digits of a natural number (JS `Number.prototype.toString`). -/
def natDigits (n : Nat) : Str := natDigitsF n n

/-- JS `n.toString().padStart(2, '0')`. -/
def pad2 (n : Nat) : Str :=
  let ds := natDigits n
  if ds.length = 1 then '0' :: ds else ds

/-- JS `n.toString().padStart(4, '0')` (ISO year field). -/
def pad4 (n : Nat) : Str :=
  let ds := natDigits n
  List.replicate (4 - ds.length) '0' ++ ds

/-! ### Date arithmetic (JS `Date` in UTC, milliseconds since the epoch) -/

/-- Days since 1970-01-01 of the civil date `(y, m, d)` (proleptic Gregorian,
the computation underlying `Date.UTC(y, m-1, d)`). -/
def daysFromCivil (y m d : Int) : Int :=
  let yy := if m ≤ 2 then y - 1 else y
  let era := Int.fdiv yy 400
  let yoe := yy - era * 400
  let mp := if m > 2 then m - 3 else m + 9
  let doy := Int.fdiv (153 * mp + 2) 5 + d - 1
  let doe := yoe * 365 + Int.fdiv yoe 4 - Int.fdiv yoe 100 + doy
  era * 146097 + doe - 719468

/-- Civil date `(y, m, d)` of a day count since 1970-01-01. -/
def civilFromDays (days : Int) : Int × Int × Int :=
  let z := days + 719468
  let era := Int.fdiv z 146097
  let doe := z - era * 146097
  let yoe :=
    Int.fdiv (doe - Int.fdiv doe 1460 + Int.fdiv doe 36524 - Int.fdiv doe 146096) 365
  let y := yoe + era * 400
  let doy := doe - (365 * yoe + Int.fdiv yoe 4 - Int.fdiv yoe 100)
  let mp := Int.fdiv (5 * doy + 2) 153
  let d := doy - Int.fdiv (153 * mp + 2) 5 + 1
  let m := if mp < 10 then mp + 3 else mp - 9
  (if m ≤ 2 then y + 1 else y, m, d)

/-- Embeds `Date.UTC(y, m-1, d, hh, mi, ss)` in milliseconds (`m` is 1-based here;
the source passes 0-based month indices to `Date.UTC`). -/
def dateUTCms (y m d hh mi ss : Int) : Int :=
  daysFromCivil y m d * 86400000 + hh * 3600000 + mi * 60000 + ss * 1000

/-- The UTC day number containing a millisecond timestamp. -/
def epochDay (ms : Int) : Int := Int.fdiv ms 86400000

/-- JS `date.toISOString().split('T')[0]`: the `YYYY-MM-DD` date part. -/
def dateStrOfMs (ms : Int) : Str :=
  let c := civilFromDays (epochDay ms)
  pad4 c.1.toNat ++ '-' :: pad2 c.2.1.toNat ++ '-' :: pad2 c.2.2.toNat

/-- JS `d.setUTCHours(hh, mi, 0, 0)` applied to a copy of the date `ms`. -/
def setUTCHoursMs (ms hh mi : Int) : Int :=
  epochDay ms * 86400000 + hh * 3600000 + mi * 60000

/-- JS `date.getUTCDay()`: 0 = Sunday … 6 = Saturday. -/
def dayOfWeek (ms : Int) : Int := Int.emod (epochDay ms + 4) 7

/-! ### Regex-matching machinery

Each embedded regex is a deterministic "attempt at the head of the string"
function; a leftmost search tries every start position in order, and a
global replace repeats the leftmost search, continuing after each match,
exactly as a JS `/g` replace does.  An attempt receives the character just
before the start position (for `\b`) and returns the number of characters
consumed together with the replacement text. -/

/-- Character just before offset `i`, for word-boundary tests. -/
def prevAt (s : Str) (i : Nat) : Option Char :=
  if i = 0 then none else s.get? (i - 1)

/-- Leftmost match of an attempt function: returns the start offset, the
consumed length and the replacement. -/
def findMatch (att : Option Char → Str → Option (Nat × Str)) (s : Str) :
    Option (Nat × Nat × Str) :=
  (List.range (s.length + 1)).findSome? fun i =>
    (att (prevAt s i) (s.drop i)).map fun p => (i, p.1, p.2)

/-- Non-global replace (JS `replace` without the `g` flag). -/
def replaceFirst (att : Option Char → Str → Option (Nat × Str)) (s : Str) : Str :=
  match findMatch att s with
  | none => s
  | some (i, n, rep) => s.take i ++ rep ++ s.drop (i + n)

/-- One step of a global replace: the text before the leftmost match, the
replacement, the remainder and the last character the match consumed. -/
def globalStep (att : Option Char → Str → Option (Nat × Str)) (s : Str) :
    Option (Str × Str × Str) :=
  match findMatch att s with
  | none => none
  | some (i, n, rep) =>
    if 1 ≤ n then some (s.take i ++ rep, s.drop (i + n), s.take (i + n)) else none

/-- Global replace with word-boundary-aware rescanning, with structural fuel
(each match consumes at least one character, so fuel `s.length` always
suffices). -/
def globalReplF (att : Option Char → Str → Option (Nat × Str)) :
    Nat → Option Char → Str → Str
  | 0, _, s => s
  | fuel + 1, prev, s =>
    match findMatch (fun p t => att (match p with | none => prev | some c => some c) t) s with
    | none => s
    | some (i, n, rep) =>
      if 1 ≤ n ∧ i + n ≤ s.length then
        s.take i ++ rep ++
          globalReplF att fuel ((s.take (i + n)).getLast?) (s.drop (i + n))
      else s

/-- Global replace (JS `replace` with the `g` flag): after a match, scanning
resumes after the matched text, and `\b` at the new position is judged
against the original matched characters. -/
def globalRepl (att : Option Char → Str → Option (Nat × Str)) (prev : Option Char)
    (s : Str) : Str :=
  globalReplF att s.length prev s

/-! ### `normalizeOCRArtifacts` (server.js lines 51-69) -/

/-- Rule `(?<=\d)\s+(?=\d)` → `''` (global): close a whitespace run lying
between two digits. -/
def attDigitGap (prev : Option Char) (s : Str) : Option (Nat × Str) :=
  match prev with
  | some p =>
    if isDigitC p then
      let w := wsLen s
      if w = 0 then none
      else
        match (s.drop w).head? with
        | some d => if isDigitC d then some (w, []) else none
        | none => none
    else none
  | none => none

/-- Rule `\bHymn\s+s\b` → `'Hymns'` (global, case-insensitive). -/
def attHymnS (prev : Option Char) (s : Str) : Option (Nat × Str) :=
  if boundaryBefore prev && startsWithCI (strOf "hymn") s then
    let rest := s.drop 4
    let w := wsLen rest
    if 1 ≤ w then
      match (rest.drop w).head? with
      | some c =>
        if eqCI c 's' && boundaryAfter (rest.drop (w + 1)) then
          some (4 + w + 1, strOf "Hymns")
        else none
      | none => none
    else none
  else none

/-- The words kept separate from a preceding single capital letter. -/
def noJoinNext : List Str :=
  [strOf "flat", strOf "sharp", strOf "major", strOf "minor"]

/-- Rule `\b([A-Z])\s+([a-z]{2,})\b` (global): reattach a split capital,
except before a musical-key word. -/
def attCapJoin (prev : Option Char) (s : Str) : Option (Nat × Str) :=
  if boundaryBefore prev then
    match s with
    | c :: rest =>
      if isUpperC c then
        let w := wsLen rest
        if 1 ≤ w then
          let low := (rest.drop w).takeWhile isLowerC
          if 2 ≤ low.length && boundaryAfter ((rest.drop w).drop low.length) then
            if noJoinNext.contains low then
              some (1 + w + low.length, c :: rest.take w ++ low)
            else
              some (1 + w + low.length, c :: low)
          else none
        else none
      else none
    | [] => none
  else none

/-- Character class `[’'`-]` of the L’Estrange repair rule. -/
def lestrangeCls (c : Char) : Bool :=
  c = '’' || c = '\'' || c = Char.ofNat 96 || c = '-'

/-- Rule `L\s*[’'`-]+\s*(?:[-—]\s*)?Estrange` → `'L’Estrange'` (global,
case-insensitive). -/
def attLEstrange (_prev : Option Char) (s : Str) : Option (Nat × Str) :=
  match s with
  | c :: rest =>
    if eqCI c 'l' then
      let w1 := wsLen rest
      let t1 := rest.drop w1
      let r := t1.takeWhile lestrangeCls
      if 1 ≤ r.length then
        let t2 := t1.drop r.length
        let w2 := wsLen t2
        let t3 := t2.drop w2
        let withOpt : Option Nat :=
          match t3 with
          | d :: t4 =>
            if d = '-' || d = '—' then
              let w3 := wsLen t4
              if startsWithCI (strOf "estrange") (t4.drop w3) then
                some (1 + w3 + 8)
              else none
            else none
          | [] => none
        match withOpt with
        | some k => some (1 + w1 + r.length + w2 + k, strOf "L’Estrange")
        | none =>
          if startsWithCI (strOf "estrange") t3 then
            some (1 + w1 + r.length + w2 + 8, strOf "L’Estrange")
          else none
      else none
    else none
  | [] => none

/-- Composer-name character class `[A-Za-z’'\-]`. -/
def cls2 (c : Char) : Bool := isLetterC c || c = '’' || c = '\'' || c = '-'

/-- A whole suffix matching `[A-Z][A-Za-z’'\-]+` exactly. -/
def isComposerTokAll (t : Str) : Bool :=
  match t with
  | c :: d :: rest => isUpperC c && (d :: rest).all cls2
  | _ => false

/-- Lazy split of `(.+?)\s+([A-Z][A-Za-z’'\-]+)$`. -/
def massForSplit (tail : Str) : Option (Str × Str) :=
  (List.range (tail.length + 1)).findSome? fun p =>
    if 1 ≤ p then
      let rest := tail.drop p
      let w := wsLen rest
      if 1 ≤ w && isComposerTokAll (rest.drop w) then
        some (tail.take p, rest.drop w)
      else none
    else none

/-- Rule `^Mass\s+for\s+—\s+(.+?)\s+([A-Z][A-Za-z’'\-]+)$` →
`'Mass for $1 — $2'` (anchored, case-sensitive, first match only). -/
def ocrMassForFix (s : Str) : Str :=
  if startsWith (strOf "Mass") s then
    let t1 := s.drop 4
    let w1 := wsLen t1
    if 1 ≤ w1 && startsWith (strOf "for") (t1.drop w1) then
      let t2 := t1.drop (w1 + 3)
      let w2 := wsLen t2
      if 1 ≤ w2 && ((t2.drop w2).head? = some '—') then
        let t3 := t2.drop (w2 + 1)
        let w3 := wsLen t3
        if 1 ≤ w3 then
          match massForSplit (t3.drop w3) with
          | some (g1, g2) => strOf "Mass for " ++ g1 ++ strOf " — " ++ g2
          | none => s
        else s
      else s
    else s
  else s

/-- Rule `\b(Mass\s+for)\s+[—–-]\s+` → `'$1 '` (case-insensitive, first
match only). -/
def attMassForDash (prev : Option Char) (s : Str) : Option (Nat × Str) :=
  if boundaryBefore prev && startsWithCI (strOf "mass") s then
    let t1 := s.drop 4
    let w1 := wsLen t1
    if 1 ≤ w1 && startsWithCI (strOf "for") (t1.drop w1) then
      let t2 := t1.drop (w1 + 3)
      let w2 := wsLen t2
      match (t2.drop w2).head? with
      | some d =>
        if 1 ≤ w2 && (d = '—' || d = '–' || d = '-') then
          let t3 := t2.drop (w2 + 1)
          let w3 := wsLen t3
          if 1 ≤ w3 then
            some (4 + w1 + 3 + w2 + 1 + w3, s.take (4 + w1 + 3) ++ [' '])
          else none
        else none
      | none => none
    else none
  else none

/-- Rule `\bof\s+—\s+` → `'of '` (global, case-insensitive). -/
def attOfEmdash (prev : Option Char) (s : Str) : Option (Nat × Str) :=
  if boundaryBefore prev && startsWithCI (strOf "of") s then
    let t1 := s.drop 2
    let w1 := wsLen t1
    if 1 ≤ w1 && ((t1.drop w1).head? = some '—') then
      let t2 := t1.drop (w1 + 1)
      let w2 := wsLen t2
      if 1 ≤ w2 then some (2 + w1 + 1 + w2, strOf "of ") else none
    else none
  else none

/-- Embeds `normalizeOCRArtifacts` (server.js lines 51-69): the ordered cascade of
extraction-artifact repairs. -/
def normalizeOCRArtifacts (s : Str) : Str :=
  let t1 := globalRepl attDigitGap none s
  let t2 := globalRepl attHymnS none t1
  let t3 := globalRepl attCapJoin none t2
  let t4 := globalRepl attLEstrange none t3
  let t5 := ocrMassForFix t4
  let t6 := replaceFirst attMassForDash t5
  globalRepl attOfEmdash none t6

/-! ### `parseTime` (server.js lines 71-99) -/

/-- Embeds `^\d{4}$`. -/
def fourDigits (s : Str) : Bool := s.length = 4 && s.all isDigitC

/-- Direction of an `(am|pm)` literal after `\s*`, if present:
`some true` = pm, `some false` = am. -/
def amPmOf (t : Str) : Option Bool :=
  let r := t.drop (wsLen t)
  if startsWith (strOf "am") r then some false
  else if startsWith (strOf "pm") r then some true
  else none

/-- Match of `(\d{1,2})[:.]?(\d{0,2})\s*(am|pm)` at the head of the string,
alternatives tried in backtracking order. -/
def ampmAtHead (s : Str) : Option (Str × Str × Bool) :=
  let ds := (s.takeWhile isDigitC).length
  let cands : List Nat := if 2 ≤ ds then [2, 1] else if 1 ≤ ds then [1] else []
  cands.findSome? fun k =>
    let rest := s.drop k
    let withSep : List Str :=
      match rest with
      | c :: r => if c = ':' || c = '.' then [r, rest] else [rest]
      | [] => [rest]
    withSep.findSome? fun r2 =>
      let d2avail := (r2.takeWhile isDigitC).length
      let d2cands : List Nat :=
        if 2 ≤ d2avail then [2, 1, 0] else if 1 ≤ d2avail then [1, 0] else [0]
      d2cands.findSome? fun k2 =>
        match amPmOf (r2.drop k2) with
        | some pm => some (s.take k, r2.take k2, pm)
        | none => none

/-- Leftmost match of the am/pm time regex. -/
def ampmSearch (s : Str) : Option (Str × Str × Bool) :=
  (List.range (s.length + 1)).findSome? fun i => ampmAtHead (s.drop i)

/-- Match of `(\d{1,2})[:.]?(\d{2})` at the head of the string. -/
def hmAtHead (s : Str) : Option (Str × Str) :=
  let ds := (s.takeWhile isDigitC).length
  let cands : List Nat := if 2 ≤ ds then [2, 1] else if 1 ≤ ds then [1] else []
  cands.findSome? fun k =>
    let rest := s.drop k
    let withSep : List Str :=
      match rest with
      | c :: r => if c = ':' || c = '.' then [r, rest] else [rest]
      | [] => [rest]
    withSep.findSome? fun r2 =>
      let d2 := r2.take 2
      if d2.length = 2 && d2.all isDigitC then some (s.take k, d2) else none

/-- Leftmost match of the 24-hour time regex. -/
def hmSearch (s : Str) : Option (Str × Str) :=
  (List.range (s.length + 1)).findSome? fun i => hmAtHead (s.drop i)

/-- Embeds `parseTime` (server.js lines 71-99): `"HHMM"`, `"H[:.]MM am/pm"` or
`"H[:.]MM"` to a zero-padded `"HH:MM"` string; `none` when unparseable. -/
def parseTime (timeStr : Str) : Option Str :=
  let time := jsToLower (jsTrim timeStr)
  if fourDigits time then
    some (pad2 (parseIntStr (time.take 2)) ++ ':' :: pad2 (parseIntStr (time.drop 2)))
  else if containsSub (strOf "pm") time || containsSub (strOf "am") time then
    match ampmSearch time with
    | some (g1, g2, pm) =>
      let hour0 := parseIntStr g1
      let minute := if g2 = [] then 0 else parseIntStr g2
      let hour :=
        if pm && hour0 ≠ 12 then hour0 + 12
        else if !pm && hour0 = 12 then 0
        else hour0
      some (pad2 hour ++ ':' :: pad2 minute)
    | none => none
  else
    match hmSearch time with
    | some (g1, g2) =>
      some (pad2 (parseIntStr g1) ++ ':' :: pad2 (parseIntStr g2))
    | none => none

/-! ### `isOrganPiece` and `classifyPiece` (server.js lines 120-209) -/

/-- Remove all whitespace (JS `replace(/\s+/g, '')`). -/
def stripWs (s : Str) : Str := s.filter (fun c => !isSpaceC c)

/-- Organ-idiom keywords of `isOrganPiece`. -/
def organKeywords : List Str :=
  [strOf "voluntary", strOf "voluntaries", strOf "organ", strOf "prelude",
   strOf "postlude", strOf "toccata", strOf "fugue", strOf "chorale",
   strOf "chaconne", strOf "passacaglia", strOf "intrada", strOf "march",
   strOf "processional", strOf "sortie", strOf "offertoire",
   strOf "trumpet tune", strOf "rondo", strOf "scherzo", strOf "canzona",
   strOf "ricercar"]

/-- Choral/canticle keywords of `isOrganPiece`. -/
def choralKeywords : List Str :=
  [strOf "responses", strOf "canticles", strOf "magnificat",
   strOf "nunc dimittis", strOf "te deum", strOf "jubilate", strOf "mass",
   strOf "psalm", strOf "hymn"]

/-- One keyword test of `isOrganPiece`: in the lowered text, or with spaces
removed on both sides. -/
def kwHit (lowerText lowerNoSpace k : Str) : Bool :=
  containsSub k lowerText || containsSub (stripWs k) lowerNoSpace

/-- Embeds `isOrganPiece` (server.js lines 120-142): an organ keyword is present and
no choral keyword is present. -/
def isOrganPiece (text : Str) : Bool :=
  let lowerText := jsToLower text
  let lowerNoSpace := stripWs lowerText
  (organKeywords.any (kwHit lowerText lowerNoSpace)) &&
    !(choralKeywords.any (kwHit lowerText lowerNoSpace))

/-- Piece categories (the `'other'` string never escapes `classifyPiece`). -/
inductive Cat
  | settings
  | anthems
  | psalms
  | hymns
  | organ
deriving DecidableEq, Repr

/-- Case-insensitive string equality. -/
def eqCIStr (a b : Str) : Bool := a.length = b.length && startsWithCI a b

/-- Tail alternation `(minor|major|flat|sharp|-\s*flat|-\s*sharp)?$` of the
settings-shape regex (case-insensitive). -/
def altTail (t : Str) : Bool :=
  t = [] ||
  [strOf "minor", strOf "major", strOf "flat", strOf "sharp"].any
    (fun a => eqCIStr a t) ||
  (match t with
   | c :: r =>
     c = '-' &&
       (eqCIStr (strOf "flat") (r.drop (wsLen r)) ||
        eqCIStr (strOf "sharp") (r.drop (wsLen r)))
   | [] => false)

/-- Embeds `^[A-Z][a-z]+\s+in\s+[A-Z]\s*(minor|major|flat|sharp|-\s*flat|-\s*sharp)?$`
with the `i` flag (so the letter classes match either case). -/
def settingsShape (text : Str) : Bool :=
  match text with
  | c :: rest =>
    if isLetterC c then
      let run := rest.takeWhile isLetterC
      if 1 ≤ run.length then
        let t1 := rest.drop run.length
        let w1 := wsLen t1
        if 1 ≤ w1 && startsWithCI (strOf "in") (t1.drop w1) then
          let t2 := t1.drop (w1 + 2)
          let w2 := wsLen t2
          match (t2.drop w2).head? with
          | some k =>
            if 1 ≤ w2 && isLetterC k then
              let t3 := t2.drop (w2 + 1)
              altTail (t3.drop (wsLen t3))
            else false
          | none => false
        else false
      else false
    else false
  | [] => false

/-- The organ-keyword disjunction opening `classifyPiece`. -/
def organKw6 (lower : Str) : Bool :=
  containsSub (strOf "prelude") lower || containsSub (strOf "postlude") lower ||
  containsSub (strOf "processional") lower || containsSub (strOf "voluntary") lower ||
  containsSub (strOf "toccata") lower || containsSub (strOf "fugue") lower

/-- The organ-keyword test of `isOrganPiece` (`hasOrgan`). -/
def hasOrganKw (text : Str) : Bool :=
  organKeywords.any (kwHit (jsToLower text) (stripWs (jsToLower text)))

/-- The choral-keyword test of `isOrganPiece` (`hasChoral`). -/
def hasChoralKw (text : Str) : Bool :=
  choralKeywords.any (kwHit (jsToLower text) (stripWs (jsToLower text)))

/-- Embeds `classifyPiece` (server.js lines 186-209). -/
def classifyPiece (text : Str) : Cat :=
  let lower := jsToLower text
  if organKw6 lower then
    .organ
  else if containsSub (strOf "hymn") lower then .hymns
  else if containsSub (strOf "psalm") lower then .psalms
  else if containsSub (strOf "anthem") lower then .anthems
  else if containsSub (strOf "magnificat") lower ||
          containsSub (strOf "nunc dimittis") lower ||
          containsSub (strOf "responses") lower ||
          containsSub (strOf "service") lower then
    .settings
  else if settingsShape text then .settings
  else .anthems

/-! ### `normalizePieceTitle` (server.js lines 144-184) -/

/-- Rule `(Mass\s+for)\s*[—–-]\s*` → `'$1 '` (global, case-insensitive). -/
def attMassForDashStar (_prev : Option Char) (s : Str) : Option (Nat × Str) :=
  if startsWithCI (strOf "mass") s then
    let t1 := s.drop 4
    let w1 := wsLen t1
    if 1 ≤ w1 && startsWithCI (strOf "for") (t1.drop w1) then
      let t2 := t1.drop (w1 + 3)
      let w2 := wsLen t2
      match (t2.drop w2).head? with
      | some d =>
        if d = '—' || d = '–' || d = '-' then
          let t3 := t2.drop (w2 + 1)
          let w3 := wsLen t3
          some (4 + w1 + 3 + w2 + 1 + w3, s.take (4 + w1 + 3) ++ [' '])
        else none
      | none => none
    else none
  else none

/-- Rule `\bof\s+[—–-]\s+(St(?:\.?|aint)?\s+[A-Z][A-Za-z’'\-]+)\s+([A-Z][A-Za-z’'\-]+)`
→ `'of $1 — $2'` (case-sensitive, first match only). -/
def attOfStPattern (prev : Option Char) (s : Str) : Option (Nat × Str) :=
  if boundaryBefore prev && startsWith (strOf "of") s then
    let t1 := s.drop 2
    let w1 := wsLen t1
    match (t1.drop w1).head? with
    | some d =>
      if 1 ≤ w1 && (d = '—' || d = '–' || d = '-') then
        let t2 := t1.drop (w1 + 1)
        let w2 := wsLen t2
        if 1 ≤ w2 && startsWith (strOf "St") (t2.drop w2) then
          let t3 := t2.drop (w2 + 2)
          let vcands : List Nat :=
            (if t3.head? = some '.' then [1] else []) ++ [0] ++
            (if startsWith (strOf "aint") t3 then [4] else [])
          let try1 := vcands.findSome? fun v =>
            let t4 := t3.drop v
            let wA := wsLen t4
            if 1 ≤ wA then
              let t5 := t4.drop wA
              let n1 := (t5.takeWhile cls2).length
              match t5.head? with
              | some c1 =>
                if isUpperC c1 && 2 ≤ n1 then
                  let t6 := t5.drop n1
                  let wB := wsLen t6
                  if 1 ≤ wB then
                    let t7 := t6.drop wB
                    let n2 := (t7.takeWhile cls2).length
                    match t7.head? with
                    | some c2 =>
                      if isUpperC c2 && 2 ≤ n2 then some (v, wA, n1, wB, n2)
                      else none
                    | none => none
                  else none
                else none
              | none => none
            else none
          match try1 with
          | some (v, wA, n1, wB, n2) =>
            let g1 := (t2.drop w2).take (2 + v + wA + n1)
            let g2 := ((t2.drop w2).drop (2 + v + wA + n1 + wB)).take n2
            some (2 + w1 + 1 + w2 + 2 + v + wA + n1 + wB + n2,
                  strOf "of " ++ g1 ++ strOf " — " ++ g2)
          | none => none
        else none
      else none
    | none => none
  else none

/-- Rule `\s+-\s+—\s+` → `' — '` (global). -/
def attDashEmdash (_prev : Option Char) (s : Str) : Option (Nat × Str) :=
  let w1 := wsLen s
  if 1 ≤ w1 && ((s.drop w1).head? = some '-') then
    let t1 := s.drop (w1 + 1)
    let w2 := wsLen t1
    if 1 ≤ w2 && ((t1.drop w2).head? = some '—') then
      let t2 := t1.drop (w2 + 1)
      let w3 := wsLen t2
      if 1 ≤ w3 then some (w1 + 1 + w2 + 1 + w3, strOf " — ") else none
    else none
  else none

/-- Embeds `^(.+?):\s*(.+)$`: split at the first usable colon. -/
def colonSplit (s : Str) : Option (Str × Str) :=
  (List.range (s.length + 1)).findSome? fun i =>
    if 1 ≤ i && (s.get? i = some ':') && s.drop (i + 1) ≠ [] then
      let rest := s.drop (i + 1)
      let w := wsLen rest
      if w = rest.length then some (s.take i, rest.drop (w - 1))
      else some (s.take i, rest.drop w)
    else none

/-- Embeds `^(.+?)\s{2,}(.+)$`: split at the first run of two or more spaces. -/
def doubleSpaceSplit (s : Str) : Option (Str × Str) :=
  (List.range (s.length + 1)).findSome? fun p =>
    if 1 ≤ p then
      let rest := s.drop p
      let r := wsLen rest
      if 2 ≤ r then
        if r < rest.length then some (s.take p, rest.drop r)
        else if 3 ≤ r then some (s.take p, rest.drop (r - 1))
        else none
      else none
    else none

/-- Psalm-reference character class `[\d\.–\-]`. -/
def clsPsalmRef (c : Char) : Bool := isDigitC c || c = '.' || c = '–' || c = '-'

/-- Composer-tail character class `[a-zA-Z\s\.]`. -/
def clsComposerTail (c : Char) : Bool := isLetterC c || isSpaceC c || c = '.'

/-- Embeds `^(Psalm\s+[\d\.–\-]+)\s+([A-Z][a-zA-Z\s\.]*?)$` with the `i` flag. -/
def psalmComposerSplit (s : Str) : Option (Str × Str) :=
  if startsWithCI (strOf "psalm") s then
    let t1 := s.drop 5
    let w1 := wsLen t1
    if 1 ≤ w1 then
      let t2 := t1.drop w1
      let ref := (t2.takeWhile clsPsalmRef).length
      if 1 ≤ ref then
        let t3 := t2.drop ref
        let w2 := wsLen t3
        if 1 ≤ w2 then
          match t3.drop w2 with
          | c :: rest =>
            if isLetterC c && rest.all clsComposerTail then
              some (s.take (5 + w1 + ref), c :: rest)
            else none
          | [] => none
        else none
      else none
    else none
  else none

/-- Composer-token character class with dots, `[A-Za-z’'\-\.]`. -/
def cls2dot (c : Char) : Bool := cls2 c || c = '.'

/-- Lazy split of `([^—;]+?)\s+([A-Z][A-Za-z’'\-]+)\b` against a tail:
start of group 1 fixed, returns (len g1, ws length, len g2). -/
def midSplit (tail : Str) : Option (Nat × Nat × Nat) :=
  (List.range (tail.length + 1)).findSome? fun p =>
    if 1 ≤ p && (tail.take p).all (fun c => !(c = '—' || c = ';')) then
      let rest := tail.drop p
      let wm := wsLen rest
      if 1 ≤ wm then
        let t := rest.drop wm
        let run := (t.takeWhile cls2).length
        match t.head? with
        | some c =>
          if isUpperC c && 2 ≤ run && boundaryAfter (t.drop run) then
            some (p, wm, run)
          else none
        | none => none
      else none
    else none

/-- Rule `\bMass\s+for\s+—\s+([^—;]+?)\s+([A-Z][A-Za-z’'\-]+)\b` →
`'Mass for $1 — $2'` (case-sensitive, first match only). -/
def attMassForMid (prev : Option Char) (s : Str) : Option (Nat × Str) :=
  if boundaryBefore prev && startsWith (strOf "Mass") s then
    let t1 := s.drop 4
    let w1 := wsLen t1
    if 1 ≤ w1 && startsWith (strOf "for") (t1.drop w1) then
      let t2 := t1.drop (w1 + 3)
      let w2 := wsLen t2
      if 1 ≤ w2 && ((t2.drop w2).head? = some '—') then
        let t3 := t2.drop (w2 + 1)
        let w3 := wsLen t3
        if 1 ≤ w3 then
          let tail := t3.drop w3
          match midSplit tail with
          | some (p, wm, n2) =>
            some (4 + w1 + 3 + w2 + 1 + w3 + p + wm + n2,
                  strOf "Mass for " ++ tail.take p ++ strOf " — " ++
                    (tail.drop (p + wm)).take n2)
          | none => none
        else none
      else none
    else none
  else none

/-- Parse the rest of a composer-token sequence
`(?:\s+[A-Z][A-Za-z’'\-\.]+)*\s*$`, accumulating the group-2 length
(structural fuel, at least `t.length`). -/
def tokSeqRestF : Nat → Str → Nat → Option Nat
  | 0, t, acc => if t = [] then some acc else none
  | fuel + 1, t, acc =>
    if t = [] then some acc
    else
      let w := wsLen t
      if w = t.length then some acc
      else
        if 1 ≤ w then
          let t2 := t.drop w
          match t2.head? with
          | some c =>
            if isUpperC c then
              let run := (t2.takeWhile cls2dot).length
              if 2 ≤ run then
                tokSeqRestF fuel (t2.drop run) (acc + w + run)
              else none
            else none
          | none => none
        else none

/-- Parse the rest of a composer-token sequence, accumulating the group-2
length. -/
def tokSeqRest (t : Str) (acc : Nat) : Option Nat := tokSeqRestF t.length t acc

/-- Parse a whole composer-token sequence
`[A-Z][A-Za-z’'\-]+(?:\s+[A-Z][A-Za-z’'\-\.]+)*\s*$`, returning the length
of the matched group (without trailing whitespace). -/
def tokSeqSplit (t : Str) : Option Nat :=
  match t.head? with
  | some c =>
    if isUpperC c then
      let run := (t.takeWhile cls2).length
      if 2 ≤ run then tokSeqRest (t.drop run) run else none
    else none
  | none => none

/-- Embeds `^(.+?)\s+([A-Z][A-Za-z’'\-]+(?:\s+[A-Z][A-Za-z’'\-\.]+)*)\s*$`:
lazy split before a trailing capitalized-token sequence. -/
def spaceMatchSplit (s : Str) : Option (Str × Str) :=
  (List.range (s.length + 1)).findSome? fun p =>
    if 1 ≤ p then
      let rest := s.drop p
      let w := wsLen rest
      if 1 ≤ w then
        match tokSeqSplit (rest.drop w) with
        | some n => some (s.take p, (rest.drop w).take n)
        | none => none
      else none
    else none

/-- Embeds `normalizePieceTitle` (server.js lines 144-184). -/
def normalizePieceTitle (s0 : Str) : Str :=
  let text := normalizeOCRArtifacts (jsTrim s0)
  if containsSub ['—'] text then text
  else
    let text := globalRepl attMassForDashStar none text
    let text := replaceFirst attOfStPattern text
    let text := globalRepl attDashEmdash none text
    match colonSplit text with
    | some (g1, g2) => jsTrim g2 ++ strOf " — " ++ jsTrim g1
    | none =>
      match doubleSpaceSplit text with
      | some (g1, g2) => jsTrim g1 ++ strOf " — " ++ jsTrim g2
      | none =>
        match psalmComposerSplit text with
        | some (g1, g2) => jsTrim g1 ++ strOf " — " ++ jsTrim g2
        | none =>
          let text := replaceFirst attMassForMid text
          match spaceMatchSplit text with
          | some (g1, g2) =>
            if !(text.any isDigitC) && g2.length < 30 then
              jsTrim g1 ++ strOf " — " ++ jsTrim g2
            else text
          | none => text

/-! ### `splitPsalmSection` and `splitMultiplePieces` (server.js lines 211-284) -/

/-- JS `split(/,\s*/)` with structural fuel (at least the string length):
split at each comma, discarding the comma and the whitespace after it. -/
def splitCommaWsF : Nat → Str → List Str
  | _, [] => [[]]
  | 0, s => [s]
  | fuel + 1, c :: rest =>
    if c = ',' then [] :: splitCommaWsF fuel (rest.dropWhile isSpaceC)
    else
      match splitCommaWsF fuel rest with
      | p :: ps => (c :: p) :: ps
      | [] => [[c]]

/-- JS `split(/,\s*/)`: split at each comma, discarding the comma and the
whitespace that follows it. -/
def splitCommaWs (s : Str) : List Str := splitCommaWsF s.length s

/-- The accumulation loop of `splitPsalmSection`: a part starting with a
digit opens a new `Psalm NN` entry, any other part is appended to the
previous entry (or opens the first entry). -/
def psalmFold (acc : List Str) : List Str → List Str
  | [] => acc
  | p :: rest =>
    if (match p.head? with | some c => isDigitC c | none => false) then
      psalmFold (acc ++ [strOf "Psalm " ++ p]) rest
    else if acc ≠ [] then
      psalmFold (acc.dropLast ++ [(acc.getLast?.getD []) ++ ' ' :: p]) rest
    else
      psalmFold [strOf "Psalm " ++ p] rest

/-- Embeds `^Psalms?\s+(.+)$` with the `i` flag: the content after the marker. -/
def psalmHeadMatch (s : Str) : Option Str :=
  if startsWithCI (strOf "psalm") s then
    let t1 := s.drop 5
    let opts : List Str :=
      (match t1.head? with
       | some c => if eqCI c 's' then [t1.drop 1] else []
       | none => []) ++ [t1]
    opts.findSome? fun t2 =>
      let w := wsLen t2
      if 1 ≤ w && t2.drop w ≠ [] then some (t2.drop w) else none
  else none

/-- Embeds `splitPsalmSection` (server.js lines 211-239). -/
def splitPsalmSection (sec : Str) : List Str :=
  match psalmHeadMatch sec with
  | some content => psalmFold [] ((splitCommaWs content).map jsTrim)
  | none => [sec]

/-- Rule `\s+Preacher:\s+.+$` → `''` (case-insensitive, first match only). -/
def attPreacher (_prev : Option Char) (s : Str) : Option (Nat × Str) :=
  let w := wsLen s
  if 1 ≤ w && startsWithCI (strOf "preacher:") (s.drop w) then
    let t1 := s.drop (w + 9)
    let w2 := wsLen t1
    if 1 ≤ w2 && t1.drop w2 ≠ [] then some (s.length, []) else none
  else none

/-- Character class `[A-Za-z\s\-]` of the setting-plus-responses pattern. -/
def clsSetResp (c : Char) : Bool := isLetterC c || isSpaceC c || c = '-'

/-- Embeds `^([A-Z][a-z]+\s+in\s+[A-Za-z\s\-]+?)\s+(Responses\s+.+)$` with the `i`
flag. -/
def settingResponsesMatch (s : Str) : Option (Str × Str) :=
  match s with
  | c :: rest =>
    if isLetterC c then
      let run := (rest.takeWhile isLetterC).length
      if 1 ≤ run then
        let t1 := rest.drop run
        let w1 := wsLen t1
        if 1 ≤ w1 && startsWithCI (strOf "in") (t1.drop w1) then
          let t2 := t1.drop (w1 + 2)
          let w2 := wsLen t2
          if 1 ≤ w2 then
            let tail := t2.drop w2
            (List.range (tail.length + 1)).findSome? fun k =>
              if 1 ≤ k && (tail.take k).all clsSetResp then
                let r2 := tail.drop k
                let wr := wsLen r2
                if 1 ≤ wr && startsWithCI (strOf "responses") (r2.drop wr) then
                  let t3 := r2.drop (wr + 9)
                  let w3 := wsLen t3
                  if 1 ≤ w3 && t3.drop w3 ≠ [] then
                    some (s.take (1 + run + w1 + 2 + w2 + k), r2.drop wr)
                  else none
                else none
              else none
          else none
        else none
      else none
    else none
  | [] => none

/-- Embeds `^(.+?)\s+(Psalms?\s+.+)$` with the `i` flag: the psalm marker must be
preceded by at least one character and whitespace. -/
def pat3Match (s : Str) : Option (Str × Str) :=
  (List.range (s.length + 1)).findSome? fun p =>
    if 1 ≤ p then
      let rest := s.drop p
      let w := wsLen rest
      if 1 ≤ w then
        let t := rest.drop w
        if startsWithCI (strOf "psalm") t then
          let t1 := t.drop 5
          let opts : List Str :=
            (match t1.head? with
             | some c => if eqCI c 's' then [t1.drop 1] else []
             | none => []) ++ [t1]
          opts.findSome? fun t2 =>
            let w2 := wsLen t2
            if 1 ≤ w2 && t2.drop w2 ≠ [] then some (s.take p, t) else none
        else none
      else none
    else none

/-- Embeds `^(.+?)\s+(Hymns?\s+.+)$` with the `i` flag. -/
def pat4Match (s : Str) : Option (Str × Str) :=
  (List.range (s.length + 1)).findSome? fun p =>
    if 1 ≤ p then
      let rest := s.drop p
      let w := wsLen rest
      if 1 ≤ w then
        let t := rest.drop w
        if startsWithCI (strOf "hymn") t then
          let t1 := t.drop 4
          let opts : List Str :=
            (match t1.head? with
             | some c => if eqCI c 's' then [t1.drop 1] else []
             | none => []) ++ [t1]
          opts.findSome? fun t2 =>
            let w2 := wsLen t2
            if 1 ≤ w2 && t2.drop w2 ≠ [] then some (s.take p, t) else none
        else none
      else none
    else none

/-- Embeds `splitMultiplePieces` (server.js lines 241-284). -/
def splitMultiplePieces (line : Str) : List Str :=
  let cleanLine := jsTrim (replaceFirst attPreacher line)
  match settingResponsesMatch cleanLine with
  | some (g1, g2) => [jsTrim g1, jsTrim g2]
  | none =>
    match pat3Match cleanLine with
    | some (g1, g2) =>
      let beforePsalm := jsTrim g1
      let psalmPieces := splitPsalmSection (jsTrim g2)
      if beforePsalm ≠ [] then beforePsalm :: psalmPieces else psalmPieces
    | none =>
      match pat4Match cleanLine with
      | some (g1, g2) =>
        let beforeHymn := jsTrim g1
        if beforeHymn ≠ [] then [beforeHymn, jsTrim g2] else [jsTrim g2]
      | none => [cleanLine]

/-! ### `hasSongmen` (server.js lines 286-289) -/

/-- Embeds `hasSongmen`: `/\bsongmen\b/i.test(choirText)` with a falsy guard. -/
def hasSongmen (choirText : Str) : Bool :=
  if choirText = [] then false
  else
    (List.range (choirText.length + 1)).any fun i =>
      boundaryBefore (prevAt choirText i) &&
        occursAtCI (strOf "songmen") choirText i &&
        boundaryAfter (choirText.drop (i + 7))

/-! ### `canonicalizeSettingPiece` (server.js lines 710-730) -/

/-- Character class `[A-Za-z\.\s]` of the composer group. -/
def settingKeyCls (c : Char) : Bool := isLetterC c || c = '.' || isSpaceC c

/-- Embeds `^([A-Z][A-Za-z\.\s]+?)\s+in\s+(.+)$` (case-sensitive). -/
def composerInKeyMatch (s : Str) : Option (Str × Str) :=
  match s with
  | c :: rest =>
    if isUpperC c then
      (List.range (rest.length + 1)).findSome? fun j =>
        if 1 ≤ j && (rest.take j).all settingKeyCls then
          let t1 := rest.drop j
          let w1 := wsLen t1
          if 1 ≤ w1 && startsWith (strOf "in") (t1.drop w1) then
            let t2 := t1.drop (w1 + 2)
            let w2 := wsLen t2
            if 1 ≤ w2 && t2.drop w2 ≠ [] then
              some (s.take (1 + j), t2.drop w2)
            else none
          else none
        else none
    else none
  | [] => none

/-- Collapse whitespace runs to single spaces, with structural fuel (at
least the string length). -/
def collapseWsF : Nat → Str → Str
  | _, [] => []
  | 0, s => s
  | fuel + 1, c :: rest =>
    if isSpaceC c then ' ' :: collapseWsF fuel (rest.dropWhile isSpaceC)
    else c :: collapseWsF fuel rest

/-- Collapse whitespace runs to single spaces (JS `replace(/\s+/g, ' ')`). -/
def collapseWs (s : Str) : Str := collapseWsF s.length s

/-- Rule `\s*-\s*` → `' - '` (global) on the key text. -/
def attKeyDash (_prev : Option Char) (s : Str) : Option (Nat × Str) :=
  let w1 := wsLen s
  if (s.drop w1).head? = some '-' then
    let t := s.drop (w1 + 1)
    some (w1 + 1 + wsLen t, strOf " - ")
  else none

/-- Rule `\s*no\.\s*` → `'no. '` (case-insensitive, first match only) on the
key text. -/
def attKeyNo (_prev : Option Char) (s : Str) : Option (Nat × Str) :=
  let w1 := wsLen s
  if startsWithCI (strOf "no.") (s.drop w1) then
    let t := s.drop (w1 + 3)
    some (w1 + 3 + wsLen t, strOf "no. ")
  else none

/-- The key transform of `canonicalizeSettingPiece`:
`m[2].trim().replace(/\s*-\s*/g, ' - ').replace(/\s*no\.\s*/i, 'no. ')`. -/
def settingKey (g2 : Str) : Str :=
  replaceFirst attKeyNo (globalRepl attKeyDash none (jsTrim g2))

/-- The explicit canticle/service keywords checked first. -/
def settingKeywords : List Str :=
  [strOf "magnificat", strOf "nunc dimittis", strOf "te deum",
   strOf "jubilate", strOf "responses", strOf "canticles", strOf "service"]

/-- Embeds `canonicalizeSettingPiece` (server.js lines 710-730). -/
def canonicalizeSettingPiece (pieceText serviceTitle : Str) : Str :=
  if settingKeywords.any (fun k => containsCI k pieceText) then
    normalizePieceTitle pieceText
  else
    match composerInKeyMatch pieceText with
    | some (g1, g2) =>
      let composer := collapseWs (jsTrim g1)
      let key := settingKey g2
      if containsCI (strOf "evensong") serviceTitle ||
         containsCI (strOf "evening prayer") serviceTitle then
        strOf "Mag and Nunc in " ++ key ++ strOf " — " ++ composer
      else if containsCI (strOf "eucharist") serviceTitle ||
              containsCI (strOf "mass") serviceTitle then
        strOf "Mass in " ++ key ++ strOf " — " ++ composer
      else
        strOf "Service in " ++ key ++ strOf " — " ++ composer
    | none => normalizePieceTitle pieceText

/-! ### Service records, deduplication, refresh and selection
(server.js lines 374-385, 575-708) -/

/-- A parsed service record (the fields used by deduplication, refresh and
the selection queries).  `date` is the JS `Date` in milliseconds (`none` =
`null`), `time` is the `"HH:MM"` string produced by `parseTime` (`none` =
`null`). -/
structure Svc where
  date : Option Int
  time : Option Str
  service : Str
  choir : Str
  allPieces : List Str
  rawLines : List Str
deriving DecidableEq, Repr

/-- JS truthiness of the `time` field (`null` and `''` are falsy). -/
def timeTruthy (t : Option Str) : Bool :=
  match t with
  | some s => s ≠ []
  | none => false

/-- The guard `svc && svc.date && svc.time` of `dedupeServices`. -/
def validSvc (s : Svc) : Bool := s.date.isSome && timeTruthy s.time

/-- The dedup key
`` `${dateStr}|${svc.time}|${(svc.service || '').trim()}|${(svc.choir || '').trim()}` ``. -/
def svcKey (s : Svc) : Str :=
  dateStrOfMs (s.date.getD 0) ++ '|' :: (s.time.getD []) ++
    '|' :: jsTrim s.service ++ '|' :: jsTrim s.choir

/-- The loop of `dedupeServices`: a `Map` keyed by `svcKey` keeps the first
valid record for each key, in insertion order. -/
def dedupeAux : List Svc → List Str → List Svc
  | [], _ => []
  | s :: rest, seen =>
    if validSvc s then
      if seen.contains (svcKey s) then dedupeAux rest seen
      else s :: dedupeAux rest (svcKey s :: seen)
    else dedupeAux rest seen

/-- Embeds `dedupeServices` (server.js lines 374-385). -/
def dedupeServices (services : List Svc) : List Svc := dedupeAux services []

/-- JS `Number` of an integer string. -/
def numOf (s : Str) : Int := Int.ofNat (parseIntStr s)

/-- Embeds `time.split(':')` and `Number` on the first two fields. -/
def parseHM (t : Str) : Int × Int :=
  let h := t.takeWhile (fun c => c ≠ ':')
  let r := (t.dropWhile (fun c => c ≠ ':')).drop 1
  (numOf h, numOf (r.takeWhile (fun c => c ≠ ':')))

/-- Timestamp of a record at date `d` and time string `t`:
`new Date(d)` followed by `setUTCHours(hour, minute, 0, 0)`. -/
def recTs (d : Int) (t : Str) : Int :=
  setUTCHoursMs d (parseHM t).1 (parseHM t).2

/-- Sort timestamp used by the comparators (`a.time || '00:00'`,
`new Date(a.date)` with `null` giving the epoch). -/
def svcTs (s : Svc) : Int :=
  let tstr :=
    match s.time with
    | some t => if t = [] then strOf "00:00" else t
    | none => strOf "00:00"
  recTs (s.date.getD 0) tstr

/-- Boolean comparator for the timestamp sorts. -/
def svcSortLE (a b : Svc) : Bool := decide (svcTs a ≤ svcTs b)

/-- Insert a record after all records at or before its timestamp (one step
of a stable sort). -/
def insertSorted (x : Svc) : List Svc → List Svc
  | [] => [x]
  | y :: ys => if svcSortLE y x then y :: insertSorted x ys else x :: y :: ys

/-- Stable ascending sort by `svcTs` (JS `sort` with the `ad - bd`
comparator is a stable comparator sort; any stable insertion realizes it). -/
def sortByTs (l : List Svc) : List Svc :=
  l.foldl (fun acc x => insertSorted x acc) []

/-- Embeds `isStale = finalEndDate && now > finalEndDate` (as a boolean). -/
def computeIsStale (endDate : Option Int) (now : Int) : Bool :=
  match endDate with
  | none => false
  | some e => decide (now > e)

/-- Embeds `new Date(Math.max(...endDates))`, absent when the list is empty. -/
def maxEndDate : List Int → Option Int
  | [] => none
  | d :: rest =>
    match maxEndDate rest with
    | none => some d
    | some m => some (max d m)

/-- The live snapshot installed by `refreshData` (the fields the selection
queries read). -/
structure Snapshot where
  services : List Svc
  endDate : Option Int
  isStale : Bool
deriving Repr

/-- The snapshot assembly of `refreshData` (server.js lines 604-630):
dedupe, merged end date, staleness, Songmen filter and timestamp sort. -/
def refreshSnapshot (allServices : List Svc) (endDates : List Int) (now : Int) :
    Snapshot :=
  let services := dedupeServices allServices
  let finalEndDate := maxEndDate endDates
  ⟨sortByTs (services.filter fun s => hasSongmen s.choir),
    finalEndDate, computeIsStale finalEndDate now⟩

/-- The filter of `getCurrentServices`: both fields set (JS-truthy) and the
record timestamp at or after `now` minus the 10-minute grace window. -/
def currentFilter (now : Int) (s : Svc) : Bool :=
  match s.date, s.time with
  | some d, some t => t ≠ [] && decide (recTs d t ≥ now - 600000)
  | _, _ => false

/-- Embeds `getCurrentServices` (server.js lines 644-667). -/
def getCurrentServices (snap : Snapshot) (now : Int) : List Svc :=
  if snap.isStale then []
  else sortByTs (snap.services.filter (currentFilter now))

/-- Embeds `getNextService` (server.js lines 669-672). -/
def getNextService (snap : Snapshot) (now : Int) : Option Svc :=
  (getCurrentServices snap now).head?

/-- Embeds `getCurrentWeekServices` (server.js lines 674-688). -/
def getCurrentWeekServices (snap : Snapshot) (now : Int) : List Svc :=
  let startMs := (epochDay now - dayOfWeek now + 1) * 86400000
  let endMs := startMs + 6 * 86400000 + 86399999
  (getCurrentServices snap now).filter fun s =>
    decide (startMs ≤ s.date.getD 0 ∧ s.date.getD 0 ≤ endMs)

/-- Embeds `getTomorrowServices` (server.js lines 690-702). -/
def getTomorrowServices (snap : Snapshot) (now : Int) : List Svc :=
  let startMs := (epochDay now + 1) * 86400000
  let endMs := startMs + 86399999
  (getCurrentServices snap now).filter fun s =>
    decide (startMs ≤ s.date.getD 0 ∧ s.date.getD 0 ≤ endMs)

/-- Embeds `getServicesOnDate` (server.js lines 704-708). -/
def getServicesOnDate (snap : Snapshot) (now : Int) (ds : Str) : List Svc :=
  (getCurrentServices snap now).filter fun s => dateStrOfMs (s.date.getD 0) = ds

/-! ### Concrete exemplar data used by the verification -/

/-- An exemplar parsed record (from the spec's end-to-end example). -/
def svcEx : Svc :=
  ⟨some (dateUTCms 2025 9 7 12 0 0), some (strOf "17:30"),
    strOf "Choral Evensong", strOf "Senior Girls & Songmen", [], []⟩

/-- Exemplar record timed 9 minutes before `nowG`. -/
def svcG9 : Svc :=
  ⟨some (dateUTCms 2025 9 10 12 0 0), some (strOf "17:30"),
    strOf "Choral Evensong", strOf "Songmen", [], []⟩

/-- Exemplar record timed 11 minutes before `nowG`. -/
def svcG11 : Svc :=
  ⟨some (dateUTCms 2025 9 10 12 0 0), some (strOf "17:28"),
    strOf "Choral Evensong", strOf "Songmen", [], []⟩

/-- Exemplar "now": 2025-09-10 17:39:00 UTC. -/
def nowG : Int := dateUTCms 2025 9 10 17 39 0

/-- Exemplar non-stale snapshot holding the two grace-window records. -/
def snapG : Snapshot :=
  ⟨[svcG9, svcG11], some (dateUTCms 2025 9 13 12 0 0), false⟩

/-! ## Helper lemmas -/

lemma isDigitC_toNat {c : Char} (h : isDigitC c = true) :
    48 ≤ c.toNat ∧ c.toNat ≤ 57 := by
  simpa [isDigitC] using h

lemma digitChar_digitVal {c : Char} (h : isDigitC c = true) :
    digitChar (digitVal c) = c := by
  have h2 := isDigitC_toNat h
  unfold digitChar digitVal
  have h3 : c.toNat - 48 + 48 = c.toNat := by omega
  rw [h3, Char.ofNat_toNat]

lemma digitVal_le {c : Char} (h : isDigitC c = true) : digitVal c ≤ 9 := by
  have := isDigitC_toNat h
  unfold digitVal
  omega

lemma lowerC_digit {c : Char} (h : isDigitC c = true) : lowerC c = c := by
  have h2 := isDigitC_toNat h
  have h3 : isUpperC c = false := by
    unfold isUpperC
    simp
    omega
  simp [lowerC, h3]

lemma isSpaceC_digit {c : Char} (h : isDigitC c = true) : isSpaceC c = false := by
  have := isDigitC_toNat h
  unfold isSpaceC
  simp
  omega

lemma parseIntStr_two (a b : Char) :
    parseIntStr [a, b] = 10 * digitVal a + digitVal b := by
  simp [parseIntStr]

lemma natDigitsF_lt10 (fuel m : Nat) (h : m < 10) :
    natDigitsF fuel m = [digitChar m] := by
  cases fuel with
  | zero => simp [natDigitsF, Nat.mod_eq_of_lt h]
  | succ f => simp [natDigitsF, h]

lemma natDigits_lt_10 {n : Nat} (h : n < 10) : natDigits n = [digitChar n] :=
  natDigitsF_lt10 n n h

lemma natDigits_two {n : Nat} (h1 : 10 ≤ n) (h2 : n ≤ 99) :
    natDigits n = [digitChar (n / 10), digitChar (n % 10)] := by
  obtain ⟨f, rfl⟩ : ∃ f, n = f + 1 := ⟨n - 1, by omega⟩
  have h3 : ¬ f + 1 < 10 := by omega
  unfold natDigits
  simp only [natDigitsF, h3, if_false]
  rw [natDigitsF_lt10 f _ (by omega)]
  simp

lemma pad2_digits (a b : Char) (ha : isDigitC a = true) (hb : isDigitC b = true) :
    pad2 (parseIntStr [a, b]) = [a, b] := by
  have hva := digitVal_le ha
  have hvb := digitVal_le hb
  rw [parseIntStr_two]
  by_cases h : digitVal a = 0
  · have hb2 : 10 * digitVal a + digitVal b = digitVal b := by omega
    have hone : natDigits (10 * digitVal a + digitVal b) = [digitChar (digitVal b)] := by
      rw [hb2]
      exact natDigits_lt_10 (by omega)
    have hz : digitChar 0 = '0' := by decide
    have ha0 : a = '0' := by rw [← digitChar_digitVal ha, h, hz]
    simp only [pad2, hone]
    simp [digitChar_digitVal hb, ha0]
  · have h1 : 10 ≤ 10 * digitVal a + digitVal b := by omega
    have h2 : 10 * digitVal a + digitVal b ≤ 99 := by omega
    have hdiv : (10 * digitVal a + digitVal b) / 10 = digitVal a := by omega
    have hmod : (10 * digitVal a + digitVal b) % 10 = digitVal b := by omega
    simp [pad2, natDigits_two h1 h2, hdiv, hmod,
      digitChar_digitVal ha, digitChar_digitVal hb]

lemma jsTrim_four {a b c d : Char} (ha : isDigitC a = true)
    (hd : isDigitC d = true) : jsTrim [a, b, c, d] = [a, b, c, d] := by
  simp [jsTrim, List.dropWhile, isSpaceC_digit ha, isSpaceC_digit hd]

lemma jsToLower_four {a b c d : Char} (ha : isDigitC a = true)
    (hb : isDigitC b = true) (hc : isDigitC c = true) (hd : isDigitC d = true) :
    jsToLower [a, b, c, d] = [a, b, c, d] := by
  simp [jsToLower, lowerC_digit ha, lowerC_digit hb, lowerC_digit hc,
    lowerC_digit hd]

/-! ## Claims -/

/-- Claim C6: For every 4-character digit string `"HHMM"` with `0 ≤ HH ≤ 23`
and `0 ≤ MM ≤ 59`, `parseTime` returns `"HH:MM"`: hour = the first two
digits and minute = the last two digits, unchanged in zero-padded form. -/
theorem parseTime_valid_hhmm (a b c d : Char)
    (ha : isDigitC a = true) (hb : isDigitC b = true)
    (hc : isDigitC c = true) (hd : isDigitC d = true)
    (hh : parseIntStr [a, b] ≤ 23) (hm : parseIntStr [c, d] ≤ 59) :
    parseTime [a, b, c, d] = some ([a, b] ++ ':' :: [c, d]) := by
  have htrim : jsToLower (jsTrim [a, b, c, d]) = [a, b, c, d] := by
    rw [jsTrim_four ha hd, jsToLower_four ha hb hc hd]
  have hfour : fourDigits [a, b, c, d] = true := by
    simp [fourDigits, ha, hb, hc, hd]
  unfold parseTime
  rw [htrim]
  simp only [hfour, if_true]
  have ht : List.take 2 [a, b, c, d] = [a, b] := rfl
  have hdp : List.drop 2 [a, b, c, d] = [c, d] := rfl
  rw [ht, hdp, pad2_digits a b ha hb, pad2_digits c d hc hd]

/-- Witness for C6 at the concrete input `"1730"`. -/
theorem parseTime_valid_hhmm_witness :
    parseTime (strOf "1730") = some (strOf "17:30") := by
  have h := parseTime_valid_hhmm '1' '7' '3' '0' (by decide) (by decide)
    (by decide) (by decide) (by decide) (by decide)
  simpa using h

/-- Claim C5, counterexample: The claim says a text containing both an organ
keyword and a choral keyword is never classified `"organ"`; but
`classifyPiece "Prelude on a hymn tune"` is `"organ"` although the choral
keyword `"hymn"` is present. -/
theorem classify_organ_counterexample :
    classifyPiece (strOf "Prelude on a hymn tune") = Cat.organ ∧
      containsSub (strOf "hymn") (jsToLower (strOf "Prelude on a hymn tune")) = true := by
  exact ⟨by decide, by decide⟩

/-- Claim C5, amended: `classifyPiece` assigns `"organ"` exactly when one of
its organ keywords (prelude, postlude, processional, voluntary, toccata,
fugue) occurs in the lowercased text, with no choral-keyword exclusion; the
choral exclusion (organ keyword present and no choral keyword present) is
applied only by the separate `isOrganPiece` predicate used when assembling
display summaries. -/
theorem classify_organ_no_exclusion :
    (∀ s : Str, classifyPiece s = Cat.organ ↔ organKw6 (jsToLower s) = true) ∧
      (∀ s : Str, isOrganPiece s = true ↔
        (hasOrganKw s = true ∧ hasChoralKw s = false)) := by
  constructor
  · intro s
    by_cases h : organKw6 (jsToLower s) = true
    · simp [classifyPiece, h]
    · simp only [classifyPiece]
      simp [h]
      split_ifs <;> simp
  · intro s
    simp [isOrganPiece, hasOrganKw, hasChoralKw]

/-- Witness for C5 (amended): a bare organ-keyword text is classified
`"organ"`. -/
theorem classify_organ_no_exclusion_witness :
    classifyPiece (strOf "Voluntary") = Cat.organ :=
  (classify_organ_no_exclusion.1 (strOf "Voluntary")).mpr (by decide)

/-- Claim C8, counterexample: Title normalization is not idempotent: for
`"X: of"` the first pass yields `"of — X"`, and the second pass's
OCR-artifact rule `\bof\s+—\s+` → `"of "` rewrites that to `"of X"`. -/
theorem normalize_not_idempotent :
    normalizePieceTitle (normalizePieceTitle (strOf "X: of")) ≠
      normalizePieceTitle (strOf "X: of") := by
  decide

/-- Claim C8, amended: Re-normalizing is the identity on every string that is
already trim- and OCR-artifact-stable and contains the canonical `"—"`
separator; in particular a typical canonical `"Work — Composer"` output
re-normalizes unchanged (idempotence fails only when the OCR-artifact
repair rewrites the first pass's output, e.g. a work text ending in
`"of"`). -/
theorem normalize_idempotent_on_stable :
    (∀ s : Str, jsTrim s = s → normalizeOCRArtifacts s = s →
      containsSub ['—'] s = true → normalizePieceTitle s = s) ∧
      normalizePieceTitle (normalizePieceTitle (strOf "Crux fidelis MacDonald")) =
        normalizePieceTitle (strOf "Crux fidelis MacDonald") := by
  constructor
  · intro s h1 h2 h3
    have hfix : normalizeOCRArtifacts (jsTrim s) = s := by rw [h1, h2]
    unfold normalizePieceTitle
    rw [hfix]
    simp [h3]
  · decide

/-- Witness for C8 (amended) at the canonical string
`"Evensong Setting — Walmisley"`. -/
theorem normalize_idempotent_on_stable_witness :
    normalizePieceTitle (strOf "Evensong Setting — Walmisley") =
      strOf "Evensong Setting — Walmisley" :=
  normalize_idempotent_on_stable.1 (strOf "Evensong Setting — Walmisley")
    (by decide) (by decide) (by decide)

/-- Claim C9: A settings-category mention matching `"<Composer> in <Key>"`
(with no explicit canticle/service keyword) is rewritten to
`"Mag and Nunc in <Key> — <Composer>"` under an evening-service title, to
`"Mass in <Key> — <Composer>"` under a eucharistic title, and to
`"Service in <Key> — <Composer>"` otherwise; in particular
`"Walmisley in D minor"` under `"Choral Evensong"` becomes
`"Mag and Nunc in D minor — Walmisley"`. -/
theorem canonicalize_setting_dispatch :
    (∀ s title g1 g2 : Str,
      (settingKeywords.any fun k => containsCI k s) = false →
      composerInKeyMatch s = some (g1, g2) →
      canonicalizeSettingPiece s title =
        (if (containsCI (strOf "evensong") title ||
             containsCI (strOf "evening prayer") title) = true then
          strOf "Mag and Nunc in " ++ settingKey g2 ++ strOf " — " ++
            collapseWs (jsTrim g1)
        else if (containsCI (strOf "eucharist") title ||
                 containsCI (strOf "mass") title) = true then
          strOf "Mass in " ++ settingKey g2 ++ strOf " — " ++
            collapseWs (jsTrim g1)
        else
          strOf "Service in " ++ settingKey g2 ++ strOf " — " ++
            collapseWs (jsTrim g1))) ∧
      canonicalizeSettingPiece (strOf "Walmisley in D minor")
          (strOf "Choral Evensong") =
        strOf "Mag and Nunc in D minor — Walmisley" := by
  constructor
  · intro s title g1 g2 h1 h2
    simp [canonicalizeSettingPiece, h1, h2]
  · decide

/-- Witness for C9 at `"Walmisley in D minor"` / `"Choral Evensong"`. -/
theorem canonicalize_setting_dispatch_witness :
    canonicalizeSettingPiece (strOf "Walmisley in D minor")
      (strOf "Choral Evensong") =
      strOf "Mag and Nunc in D minor — Walmisley" := by
  have h := canonicalize_setting_dispatch.1 (strOf "Walmisley in D minor")
    (strOf "Choral Evensong") (strOf "Walmisley") (strOf "D minor")
    (by decide) (by decide)
  simpa using h

lemma stale_current_empty (snap : Snapshot) (now : Int) (h : snap.isStale = true) :
    getCurrentServices snap now = [] := by
  simp [getCurrentServices, h]

/-- Claim C1: Staleness is true iff a merged `validityEndDate` exists and
`now` is strictly after it; a stale snapshot forces every selection query
(current/upcoming, next, week, tomorrow, day) to the empty result
regardless of the records; and concretely, with
`validityEndDate = 2025-09-13` and `now = 2025-09-14T00:00:01Z` every
refreshed snapshot is stale whatever its records. -/
theorem staleness_spec :
    (∀ (allS : List Svc) (eds : List Int) (now : Int),
      (refreshSnapshot allS eds now).isStale = true ↔
        ∃ d, maxEndDate eds = some d ∧ now > d) ∧
    (∀ (snap : Snapshot) (now : Int) (ds : Str), snap.isStale = true →
      getCurrentServices snap now = [] ∧ getNextService snap now = none ∧
      getCurrentWeekServices snap now = [] ∧
      getTomorrowServices snap now = [] ∧ getServicesOnDate snap now ds = []) ∧
    (∀ services : List Svc,
      (refreshSnapshot services [dateUTCms 2025 9 13 12 0 0]
          (dateUTCms 2025 9 14 0 0 1)).isStale = true) := by
  refine ⟨?_, ?_, ?_⟩
  · intro allS eds now
    show computeIsStale (maxEndDate eds) now = true ↔ _
    cases h : maxEndDate eds with
    | none => simp [computeIsStale]
    | some d => simp [computeIsStale]
  · intro snap now ds h
    have h0 := stale_current_empty snap now h
    refine ⟨h0, ?_, ?_, ?_, ?_⟩ <;>
      simp [getNextService, getCurrentWeekServices, getTomorrowServices,
        getServicesOnDate, h0]
  · intro services
    show computeIsStale (maxEndDate [dateUTCms 2025 9 13 12 0 0])
      (dateUTCms 2025 9 14 0 0 1) = true
    decide

/-- Witness for C1: a concrete refresh past the validity end date is stale
and its selection queries are empty, with a would-be qualifying record in
the snapshot. -/
theorem staleness_spec_witness :
    (refreshSnapshot [svcEx] [dateUTCms 2025 9 13 12 0 0]
        (dateUTCms 2025 9 14 0 0 1)).isStale = true ∧
      getCurrentServices
        (refreshSnapshot [svcEx] [dateUTCms 2025 9 13 12 0 0]
          (dateUTCms 2025 9 14 0 0 1)) (dateUTCms 2025 9 14 0 0 1) = [] := by
  have h1 := staleness_spec.2.2 [svcEx]
  have h2 := staleness_spec.2.1 _ (dateUTCms 2025 9 14 0 0 1) [] h1
  exact ⟨h1, h2.1⟩

lemma mem_insertSorted {x r : Svc} {l : List Svc} :
    r ∈ insertSorted x l ↔ r = x ∨ r ∈ l := by
  induction l with
  | nil => simp [insertSorted]
  | cons y ys ih =>
    unfold insertSorted
    split_ifs with h
    · simp [ih]
      tauto
    · simp

lemma mem_sortByTs_aux (l : List Svc) :
    ∀ (acc : List Svc) (r : Svc),
      r ∈ l.foldl (fun a x => insertSorted x a) acc ↔ r ∈ acc ∨ r ∈ l := by
  induction l with
  | nil => simp
  | cons y ys ih =>
    intro acc r
    simp only [List.foldl_cons, ih, mem_insertSorted, List.mem_cons]
    tauto

lemma mem_sortByTs {l : List Svc} {r : Svc} : r ∈ sortByTs l ↔ r ∈ l := by
  unfold sortByTs
  rw [mem_sortByTs_aux]
  simp

lemma sorted_insertSorted (x : Svc) (l : List Svc)
    (h : l.Pairwise (fun a b => svcTs a ≤ svcTs b)) :
    (insertSorted x l).Pairwise (fun a b => svcTs a ≤ svcTs b) := by
  induction l with
  | nil => simp [insertSorted]
  | cons y ys ih =>
    rcases List.pairwise_cons.mp h with ⟨hy, hys⟩
    unfold insertSorted
    split_ifs with hle
    · refine List.pairwise_cons.mpr ⟨?_, ih hys⟩
      intro z hz
      rcases mem_insertSorted.mp hz with rfl | hz'
      · simpa [svcSortLE] using hle
      · exact hy z hz'
    · refine List.pairwise_cons.mpr ⟨?_, h⟩
      intro z hz
      have hxy : svcTs x ≤ svcTs y := by
        simp [svcSortLE] at hle
        omega
      rcases List.mem_cons.mp hz with rfl | hz'
      · exact hxy
      · exact le_trans hxy (hy z hz')

lemma sorted_sortByTs_aux (l : List Svc) :
    ∀ acc : List Svc, acc.Pairwise (fun a b => svcTs a ≤ svcTs b) →
      (l.foldl (fun a x => insertSorted x a) acc).Pairwise
        (fun a b => svcTs a ≤ svcTs b) := by
  induction l with
  | nil => simp
  | cons y ys ih =>
    intro acc hacc
    exact ih _ (sorted_insertSorted y acc hacc)

lemma sorted_sortByTs (l : List Svc) :
    (sortByTs l).Pairwise (fun a b => svcTs a ≤ svcTs b) :=
  sorted_sortByTs_aux l [] (by simp)

/-- Claim C3: In a non-stale snapshot, a record with both date and time set is
selected by the current/upcoming query iff its timestamp (date at time,
UTC) is at or after `now` minus the 10-minute grace window, and the
selected records are sorted ascending by that timestamp; concretely, a
record timed at `now − 9` minutes is selected and one at `now − 11`
minutes is excluded. -/
theorem current_selection_spec :
    (∀ (snap : Snapshot) (now : Int), snap.isStale = false →
      (∀ (r : Svc) (d : Int) (t : Str), r ∈ snap.services → r.date = some d →
        r.time = some t → t ≠ [] →
        (r ∈ getCurrentServices snap now ↔ now - 600000 ≤ recTs d t)) ∧
      (getCurrentServices snap now).Pairwise (fun a b => svcTs a ≤ svcTs b)) ∧
    recTs (dateUTCms 2025 9 10 12 0 0) (strOf "17:30") = nowG - 540000 ∧
    recTs (dateUTCms 2025 9 10 12 0 0) (strOf "17:28") = nowG - 660000 ∧
    svcG9 ∈ getCurrentServices snapG nowG ∧
    svcG11 ∉ getCurrentServices snapG nowG := by
  refine ⟨?_, by decide, by decide, by decide, by decide⟩
  intro snap now h
  constructor
  · intro r d t hmem hd ht htne
    simp only [getCurrentServices, h, if_false, Bool.false_eq_true,
      mem_sortByTs, List.mem_filter]
    simp [currentFilter, hd, ht, htne, hmem]
  · simp only [getCurrentServices, h, Bool.false_eq_true, if_false]
    exact sorted_sortByTs _

/-- Witness for C3: the membership criterion applied to the record timed
nine minutes before `nowG` in the concrete snapshot. -/
theorem current_selection_spec_witness :
    svcG9 ∈ getCurrentServices snapG nowG ↔
      nowG - 600000 ≤ recTs (dateUTCms 2025 9 10 12 0 0) (strOf "17:30") := by
  exact (current_selection_spec.1 snapG nowG rfl).1 svcG9
    (dateUTCms 2025 9 10 12 0 0) (strOf "17:30")
    (List.mem_cons_self _ _) rfl rfl (by decide)

lemma mem_dedupeAux (l : List Svc) :
    ∀ (seen : List Str) (r : Svc),
      r ∈ dedupeAux l seen ↔
        ∃ l1 l2, l = l1 ++ r :: l2 ∧ validSvc r = true ∧
          svcKey r ∉ seen ∧
          ∀ x ∈ l1, validSvc x = true → svcKey x ≠ svcKey r := by
  induction l with
  | nil =>
    intro seen r
    simp [dedupeAux]
  | cons s rest ih =>
    intro seen r
    by_cases hv : validSvc s = true
    · by_cases hc : svcKey s ∈ seen
      · have hstep : dedupeAux (s :: rest) seen = dedupeAux rest seen := by
          simp [dedupeAux, hv, hc]
        rw [hstep, ih]
        constructor
        · rintro ⟨l1, l2, heq, hvr, hcr, hcond⟩
          refine ⟨s :: l1, l2, by simp [heq], hvr, hcr, ?_⟩
          intro x hx hvx
          rcases List.mem_cons.mp hx with rfl | hx'
          · intro hk
            rw [hk] at hc
            exact hcr hc
          · exact hcond x hx' hvx
        · rintro ⟨l1, l2, heq, hvr, hcr, hcond⟩
          cases l1 with
          | nil =>
            simp at heq
            obtain ⟨rfl, rfl⟩ := heq
            exact absurd hc hcr
          | cons a l1' =>
            simp at heq
            obtain ⟨rfl, heq2⟩ := heq
            exact ⟨l1', l2, heq2, hvr, hcr,
              fun x hx hvx => hcond x (List.mem_cons_of_mem _ hx) hvx⟩
      · have hstep : dedupeAux (s :: rest) seen =
            s :: dedupeAux rest (svcKey s :: seen) := by
          simp [dedupeAux, hv, hc]
        rw [hstep]
        constructor
        · intro hmem
          rcases List.mem_cons.mp hmem with rfl | hmem'
          · exact ⟨[], rest, rfl, hv, hc, by simp⟩
          · obtain ⟨l1, l2, heq, hvr, hcr, hcond⟩ := (ih _ _).mp hmem'
            have hcr2 : ¬(svcKey r = svcKey s) ∧ svcKey r ∉ seen := by
              simpa [List.mem_cons] using hcr
            refine ⟨s :: l1, l2, by simp [heq], hvr, hcr2.2, ?_⟩
            intro x hx hvx
            rcases List.mem_cons.mp hx with rfl | hx'
            · exact fun hk => hcr2.1 hk.symm
            · exact hcond x hx' hvx
        · rintro ⟨l1, l2, heq, hvr, hcr, hcond⟩
          cases l1 with
          | nil =>
            simp at heq
            obtain ⟨rfl, rfl⟩ := heq
            exact List.mem_cons_self _ _
          | cons a l1' =>
            simp at heq
            obtain ⟨rfl, heq2⟩ := heq
            have hne : svcKey s ≠ svcKey r :=
              hcond s (List.mem_cons_self _ _) hv
            refine List.mem_cons_of_mem _ ((ih _ _).mpr
              ⟨l1', l2, heq2, hvr, ?_,
                fun x hx hvx => hcond x (List.mem_cons_of_mem _ hx) hvx⟩)
            intro hmem2
            rcases List.mem_cons.mp hmem2 with hk | hk
            · exact hne hk.symm
            · exact hcr hk
    · have hstep : dedupeAux (s :: rest) seen = dedupeAux rest seen := by
        simp [dedupeAux, hv]
      rw [hstep, ih]
      constructor
      · rintro ⟨l1, l2, heq, hvr, hcr, hcond⟩
        refine ⟨s :: l1, l2, by simp [heq], hvr, hcr, ?_⟩
        intro x hx hvx
        rcases List.mem_cons.mp hx with rfl | hx'
        · exact absurd hvx hv
        · exact hcond x hx' hvx
      · rintro ⟨l1, l2, heq, hvr, hcr, hcond⟩
        cases l1 with
        | nil =>
          simp at heq
          obtain ⟨rfl, rfl⟩ := heq
          exact absurd hvr hv
        | cons a l1' =>
          simp at heq
          obtain ⟨rfl, heq2⟩ := heq
          exact ⟨l1', l2, heq2, hvr, hcr,
            fun x hx hvx => hcond x (List.mem_cons_of_mem _ hx) hvx⟩

lemma dedupeAux_pairwise (l : List Svc) :
    ∀ seen : List Str,
      (dedupeAux l seen).Pairwise fun a b => svcKey a ≠ svcKey b := by
  induction l with
  | nil =>
    intro seen
    simp [dedupeAux]
  | cons s rest ih =>
    intro seen
    by_cases hv : validSvc s = true
    · by_cases hc : svcKey s ∈ seen
      · have hstep : dedupeAux (s :: rest) seen = dedupeAux rest seen := by
          simp [dedupeAux, hv, hc]
        rw [hstep]
        exact ih seen
      · have hstep : dedupeAux (s :: rest) seen =
            s :: dedupeAux rest (svcKey s :: seen) := by
          simp [dedupeAux, hv, hc]
        rw [hstep]
        refine List.pairwise_cons.mpr ⟨?_, ih _⟩
        intro y hy
        obtain ⟨l1, l2, heq, hvy, hcy, hcond⟩ :=
          (mem_dedupeAux rest _ y).mp hy
        intro hk
        exact hcy (by rw [← hk]; exact List.mem_cons_self _ _)
    · have hstep : dedupeAux (s :: rest) seen = dedupeAux rest seen := by
        simp [dedupeAux, hv]
      rw [hstep]
      exact ih seen

lemma dedupeAux_complete (l : List Svc) :
    ∀ (seen : List Str) (x : Svc), x ∈ l → validSvc x = true →
      svcKey x ∈ seen ∨
        ∃ r ∈ dedupeAux l seen, svcKey r = svcKey x := by
  induction l with
  | nil =>
    intro seen x hx
    simp at hx
  | cons s rest ih =>
    intro seen x hx hvx
    by_cases hv : validSvc s = true
    · by_cases hc : svcKey s ∈ seen
      · have hstep : dedupeAux (s :: rest) seen = dedupeAux rest seen := by
          simp [dedupeAux, hv, hc]
        rw [hstep]
        rcases List.mem_cons.mp hx with rfl | hx'
        · exact Or.inl hc
        · exact ih seen x hx' hvx
      · have hstep : dedupeAux (s :: rest) seen =
            s :: dedupeAux rest (svcKey s :: seen) := by
          simp [dedupeAux, hv, hc]
        rw [hstep]
        rcases List.mem_cons.mp hx with rfl | hx'
        · exact Or.inr ⟨x, List.mem_cons_self _ _, rfl⟩
        · rcases ih (svcKey s :: seen) x hx' hvx with hcont | ⟨r, hr, hkr⟩
          · rcases List.mem_cons.mp hcont with hk | hk
            · exact Or.inr ⟨s, List.mem_cons_self _ _, hk.symm⟩
            · exact Or.inl hk
          · exact Or.inr ⟨r, List.mem_cons_of_mem _ hr, hkr⟩
    · have hstep : dedupeAux (s :: rest) seen = dedupeAux rest seen := by
        simp [dedupeAux, hv]
      rw [hstep]
      rcases List.mem_cons.mp hx with rfl | hx'
      · exact absurd hvx hv
      · exact ih seen x hx' hvx

lemma svcKey_congr {a b : Svc} (h1 : a.date = b.date) (h2 : a.time = b.time)
    (h3 : a.service = b.service) (h4 : a.choir = b.choir) :
    svcKey a = svcKey b := by
  simp [svcKey, h1, h2, h3, h4]

/-- Claim C2: The merged schedule contains no two records sharing the key
(date, time, title, choirLabel); every merged record is the first valid
occurrence of its key in the concatenated input (no earlier valid record
shares its key); every valid input record is represented; and two documents
each containing an identical record contribute exactly one merged
record. -/
theorem dedupe_merge_spec :
    (∀ docs : List (List Svc),
      ((dedupeServices docs.flatten).Pairwise fun a b =>
        ¬(a.date = b.date ∧ a.time = b.time ∧ a.service = b.service ∧
          a.choir = b.choir)) ∧
      (∀ r ∈ dedupeServices docs.flatten,
        ∃ l1 l2, docs.flatten = l1 ++ r :: l2 ∧ validSvc r = true ∧
          ∀ x ∈ l1, validSvc x = true → svcKey x ≠ svcKey r) ∧
      (∀ x ∈ docs.flatten, validSvc x = true →
        ∃ r ∈ dedupeServices docs.flatten, svcKey r = svcKey x)) ∧
    dedupeServices ([[svcEx], [svcEx]].flatten) = [svcEx] := by
  constructor
  · intro docs
    refine ⟨?_, ?_, ?_⟩
    · exact (dedupeAux_pairwise docs.flatten []).imp fun hk ht =>
        hk (svcKey_congr ht.1 ht.2.1 ht.2.2.1 ht.2.2.2)
    · intro r hr
      obtain ⟨l1, l2, heq, hvr, _, hcond⟩ :=
        (mem_dedupeAux docs.flatten [] r).mp hr
      exact ⟨l1, l2, heq, hvr, hcond⟩
    · intro x hx hvx
      rcases dedupeAux_complete docs.flatten [] x hx hvx with hcont | h
      · simp at hcont
      · exact h
  · decide

/-- Witness for C2: the duplicated exemplar record is kept as the first
occurrence of its key. -/
theorem dedupe_merge_spec_witness :
    ∃ l1 l2, ([[svcEx], [svcEx]].flatten : List Svc) = l1 ++ svcEx :: l2 ∧
      validSvc svcEx = true ∧
      ∀ x ∈ l1, validSvc x = true → svcKey x ≠ svcKey svcEx :=
  (dedupe_merge_spec.1 [[svcEx], [svcEx]]).2.1 svcEx (by decide)

lemma valid_fields {r : Svc} (h : validSvc r = true) :
    r.date.isSome = true ∧ r.time.isSome = true := by
  simp only [validSvc, Bool.and_eq_true] at h
  refine ⟨h.1, ?_⟩
  rcases ht : r.time with _ | t
  · rw [ht] at h
    simp [timeTruthy] at h
  · simp

lemma mem_dedupe_valid {l : List Svc} {r : Svc} (h : r ∈ dedupeServices l) :
    validSvc r = true := by
  obtain ⟨_, _, _, hv, _⟩ := (mem_dedupeAux l [] r).mp h
  exact hv

lemma mem_refresh_services {svcs : List Svc} {eds : List Int} {now : Int}
    {r : Svc} (h : r ∈ (refreshSnapshot svcs eds now).services) :
    r ∈ dedupeServices svcs ∧ hasSongmen r.choir = true := by
  have h2 : r ∈ (dedupeServices svcs).filter (fun s => hasSongmen s.choir) :=
    mem_sortByTs.mp h
  simpa [List.mem_filter] using h2

lemma mem_current_parts {snap : Snapshot} {now : Int} {r : Svc}
    (h : r ∈ getCurrentServices snap now) :
    r ∈ snap.services ∧ currentFilter now r = true := by
  by_cases hs : snap.isStale = true
  · simp [getCurrentServices, hs] at h
  · rw [getCurrentServices, if_neg hs] at h
    simpa [List.mem_filter] using mem_sortByTs.mp h

lemma mem_next_current {snap : Snapshot} {now : Int} {r : Svc}
    (h : getNextService snap now = some r) :
    r ∈ getCurrentServices snap now := by
  unfold getNextService at h
  rcases hl : getCurrentServices snap now with _ | ⟨a, t⟩
  · rw [hl] at h
    exact Option.noConfusion h
  · rw [hl] at h
    simp at h
    subst h
    exact List.mem_cons_self _ _

/-- Claim C7: Every record in the merged schedule has a non-null date and a
non-null time: a record whose time is unparseable (`null`) or whose date
never resolved is dropped by `dedupeServices` before the merged schedule is
produced, and never appears in the snapshot or in any query result. -/
theorem merged_records_have_date_time :
    (∀ (svcs : List Svc) (r : Svc), r ∈ dedupeServices svcs →
      r.date.isSome = true ∧ r.time.isSome = true) ∧
    (∀ (svcs : List Svc) (eds : List Int) (now : Int) (r : Svc),
      r ∈ (refreshSnapshot svcs eds now).services →
      r.date.isSome = true ∧ r.time.isSome = true) ∧
    (∀ (svcs : List Svc) (eds : List Int) (now now2 : Int) (r : Svc),
      r ∈ getCurrentServices (refreshSnapshot svcs eds now) now2 →
      r.date.isSome = true ∧ r.time.isSome = true) ∧
    (∀ (svcs : List Svc) (eds : List Int) (now now2 : Int) (r : Svc),
      getNextService (refreshSnapshot svcs eds now) now2 = some r →
      r.date.isSome = true ∧ r.time.isSome = true) ∧
    (∀ (svcs : List Svc) (eds : List Int) (now now2 : Int) (r : Svc),
      r ∈ getCurrentWeekServices (refreshSnapshot svcs eds now) now2 →
      r.date.isSome = true ∧ r.time.isSome = true) ∧
    (∀ (svcs : List Svc) (eds : List Int) (now now2 : Int) (r : Svc),
      r ∈ getTomorrowServices (refreshSnapshot svcs eds now) now2 →
      r.date.isSome = true ∧ r.time.isSome = true) ∧
    (∀ (svcs : List Svc) (eds : List Int) (now now2 : Int) (ds : Str) (r : Svc),
      r ∈ getServicesOnDate (refreshSnapshot svcs eds now) now2 ds →
      r.date.isSome = true ∧ r.time.isSome = true) := by
  have hded : ∀ (svcs : List Svc) (r : Svc), r ∈ dedupeServices svcs →
      r.date.isSome = true ∧ r.time.isSome = true :=
    fun svcs r h => valid_fields (mem_dedupe_valid h)
  have hsnap : ∀ (svcs : List Svc) (eds : List Int) (now : Int) (r : Svc),
      r ∈ (refreshSnapshot svcs eds now).services →
      r.date.isSome = true ∧ r.time.isSome = true :=
    fun svcs eds now r h => hded svcs r (mem_refresh_services h).1
  have hcur : ∀ (svcs : List Svc) (eds : List Int) (now now2 : Int) (r : Svc),
      r ∈ getCurrentServices (refreshSnapshot svcs eds now) now2 →
      r.date.isSome = true ∧ r.time.isSome = true :=
    fun svcs eds now now2 r h => hsnap svcs eds now r (mem_current_parts h).1
  refine ⟨hded, hsnap, hcur, ?_, ?_, ?_, ?_⟩
  · exact fun svcs eds now now2 r h =>
      hcur svcs eds now now2 r (mem_next_current h)
  · exact fun svcs eds now now2 r h =>
      hcur svcs eds now now2 r (List.mem_filter.mp h).1
  · exact fun svcs eds now now2 r h =>
      hcur svcs eds now now2 r (List.mem_filter.mp h).1
  · exact fun svcs eds now now2 ds r h =>
      hcur svcs eds now now2 r (List.mem_filter.mp h).1

/-- Witness for C7 at the exemplar record. -/
theorem merged_records_have_date_time_witness :
    svcEx.date.isSome = true ∧ svcEx.time.isSome = true :=
  merged_records_have_date_time.1 [svcEx] svcEx (by decide)

/-- Claim C10 (implicit): Every snapshot installed by a refresh contains only
records whose choir label contains `"songmen"` as a whole word
(case-insensitively); consequently every selection query returns only such
records, and a parsed service without a Songmen choir label is never
visible at the query interface. -/
theorem songmen_only_visible :
    (∀ (svcs : List Svc) (eds : List Int) (now : Int) (r : Svc),
      r ∈ (refreshSnapshot svcs eds now).services →
      hasSongmen r.choir = true) ∧
    (∀ (svcs : List Svc) (eds : List Int) (now now2 : Int) (r : Svc),
      r ∈ getCurrentServices (refreshSnapshot svcs eds now) now2 →
      hasSongmen r.choir = true) ∧
    (∀ (svcs : List Svc) (eds : List Int) (now now2 : Int) (r : Svc),
      getNextService (refreshSnapshot svcs eds now) now2 = some r →
      hasSongmen r.choir = true) ∧
    (∀ (svcs : List Svc) (eds : List Int) (now now2 : Int) (r : Svc),
      r ∈ getCurrentWeekServices (refreshSnapshot svcs eds now) now2 →
      hasSongmen r.choir = true) ∧
    (∀ (svcs : List Svc) (eds : List Int) (now now2 : Int) (r : Svc),
      r ∈ getTomorrowServices (refreshSnapshot svcs eds now) now2 →
      hasSongmen r.choir = true) ∧
    (∀ (svcs : List Svc) (eds : List Int) (now now2 : Int) (ds : Str) (r : Svc),
      r ∈ getServicesOnDate (refreshSnapshot svcs eds now) now2 ds →
      hasSongmen r.choir = true) := by
  have hsnap : ∀ (svcs : List Svc) (eds : List Int) (now : Int) (r : Svc),
      r ∈ (refreshSnapshot svcs eds now).services →
      hasSongmen r.choir = true :=
    fun svcs eds now r h => (mem_refresh_services h).2
  have hcur : ∀ (svcs : List Svc) (eds : List Int) (now now2 : Int) (r : Svc),
      r ∈ getCurrentServices (refreshSnapshot svcs eds now) now2 →
      hasSongmen r.choir = true :=
    fun svcs eds now now2 r h => hsnap svcs eds now r (mem_current_parts h).1
  refine ⟨hsnap, hcur, ?_, ?_, ?_, ?_⟩
  · exact fun svcs eds now now2 r h =>
      hcur svcs eds now now2 r (mem_next_current h)
  · exact fun svcs eds now now2 r h =>
      hcur svcs eds now now2 r (List.mem_filter.mp h).1
  · exact fun svcs eds now now2 r h =>
      hcur svcs eds now now2 r (List.mem_filter.mp h).1
  · exact fun svcs eds now now2 ds r h =>
      hcur svcs eds now now2 r (List.mem_filter.mp h).1

/-- Witness for C10 at the exemplar snapshot. -/
theorem songmen_only_visible_witness :
    hasSongmen svcEx.choir = true :=
  songmen_only_visible.1 [svcEx] [] 0 svcEx (by decide)

lemma startsWithCI_append_needle {n1 n2 t : Str}
    (h : startsWithCI (n1 ++ n2) t = true) : startsWithCI n1 t = true := by
  induction n1 generalizing t with
  | nil => rfl
  | cons a as ih =>
    cases t with
    | nil => simp [startsWithCI] at h
    | cons c ts =>
      simp only [List.cons_append, startsWithCI, Bool.and_eq_true] at h ⊢
      exact ⟨h.1, ih h.2⟩

lemma containsCI_of_drop {n hay : Str} {j : Nat} (hn : n ≠ [])
    (h : startsWithCI n (hay.drop j) = true) : containsCI n hay = true := by
  unfold containsCI
  rw [List.any_eq_true]
  refine ⟨j, List.mem_range.mpr ?_, h⟩
  by_contra hj
  have hle : hay.length ≤ j := by omega
  rw [List.drop_eq_nil_of_le hle] at h
  cases n with
  | nil => exact hn rfl
  | cons a as => simp [startsWithCI] at h

lemma containsCI_tail {n hay : Str} {j : Nat} (hn : n ≠ []) (hj : 1 ≤ j)
    (h : startsWithCI n (hay.drop j) = true) :
    containsCI n (hay.drop 1) = true := by
  apply containsCI_of_drop hn (j := j - 1)
  rw [List.drop_drop]
  have : 1 + (j - 1) = j := by omega
  rw [this]
  exact h

lemma preacher_cut_id {line : Str}
    (h : containsCI (strOf "preacher") (line.drop 1) = false) :
    replaceFirst attPreacher line = line := by
  unfold replaceFirst
  have hnone : findMatch attPreacher line = none := by
    unfold findMatch
    rw [List.findSome?_eq_none_iff]
    intro i hi
    suffices hatt : attPreacher (prevAt line i) (line.drop i) = none by
      simp [hatt]
    by_cases hS : startsWithCI (strOf "preacher:")
        (line.drop (i + wsLen (line.drop i))) = true
    · by_cases hw : 1 ≤ wsLen (line.drop i)
      · exfalso
        have h2 : startsWithCI (strOf "preacher")
            (line.drop (i + wsLen (line.drop i))) = true := by
          have heq : strOf "preacher:" = strOf "preacher" ++ [':'] := by decide
          rw [heq] at hS
          exact startsWithCI_append_needle hS
        have h3 := containsCI_tail (by decide) (by omega) h2
        rw [h] at h3
        exact Bool.noConfusion h3
      · simp [attPreacher, hw]
    · simp [attPreacher, List.drop_drop, hS]
  rw [hnone]

lemma pat3Match_none {s : Str}
    (h : containsCI (strOf "psalm") (s.drop 1) = false) : pat3Match s = none := by
  unfold pat3Match
  rw [List.findSome?_eq_none_iff]
  intro p hp
  by_cases h1 : 1 ≤ p
  · by_cases h2 : 1 ≤ wsLen (s.drop p)
    · by_cases h3 : startsWithCI (strOf "psalm")
          (s.drop (p + wsLen (s.drop p))) = true
      · exfalso
        have h4 := containsCI_tail (by decide) (by omega) h3
        rw [h] at h4
        exact Bool.noConfusion h4
      · simp [h1, h2, List.drop_drop, h3]
    · simp [h1, h2]
  · simp [h1]

lemma pat4Match_none {s : Str}
    (h : containsCI (strOf "hymn") (s.drop 1) = false) : pat4Match s = none := by
  unfold pat4Match
  rw [List.findSome?_eq_none_iff]
  intro p hp
  by_cases h1 : 1 ≤ p
  · by_cases h2 : 1 ≤ wsLen (s.drop p)
    · by_cases h3 : startsWithCI (strOf "hymn")
          (s.drop (p + wsLen (s.drop p))) = true
      · exfalso
        have h4 := containsCI_tail (by decide) (by omega) h3
        rw [h] at h4
        exact Bool.noConfusion h4
      · simp [h1, h2, List.drop_drop, h3]
    · simp [h1, h2]
  · simp [h1]

lemma containsCI_cons_of_drop {n rest : Str} {c : Char} {j : Nat}
    (hn : n ≠ []) (h : startsWithCI n (rest.drop j) = true) :
    containsCI n (c :: rest) = true := by
  apply containsCI_of_drop hn (j := j + 1)
  rw [List.drop_succ_cons]
  exact h

lemma settingResponses_none {s : Str}
    (h : containsCI (strOf "responses") s = false) :
    settingResponsesMatch s = none := by
  cases hm : settingResponsesMatch s with
  | none => rfl
  | some v =>
    exfalso
    rcases s with _ | ⟨c, rest⟩
    · simp only [settingResponsesMatch] at hm
      exact Option.noConfusion hm
    · simp only [settingResponsesMatch] at hm
      split_ifs at hm with h1 h2 h3 h4
      obtain ⟨k, hk, hkv⟩ := List.exists_of_findSome?_eq_some hm
      split_ifs at hkv with h5 h6 h7
      rw [Bool.and_eq_true] at h6
      have h8 := h6.2
      simp only [List.drop_drop] at h8
      have h9 := containsCI_cons_of_drop (c := c) (by decide) h8
      rw [h] at h9
      exact Bool.noConfusion h9

/-- Claim C4, counterexample: The claim says a line beginning with the
`"Psalm(s)"` marker (empty pre-marker text) is still split into psalm
entries, so that `"Psalm 110 Garrett , 150 Stanford"` yields the two
mentions `"Psalm 110 — Garrett"` and `"Psalm 150 — Stanford"`; but the
splitter's pattern requires at least one character before the marker, so
that line is returned whole as a single mention. -/
theorem psalm_split_counterexample :
    (splitMultiplePieces (strOf "Psalm 110 Garrett , 150 Stanford")).map
        normalizePieceTitle ≠
      [strOf "Psalm 110 — Garrett", strOf "Psalm 150 — Stanford"] := by
  decide

/-- Claim C4, amended: The psalm split applies only when non-empty pre-marker
text (and separating whitespace) precedes the `"Psalm(s)"` marker: a trimmed
line with no marker after its first character (and no preacher, responses
or hymn marker) is returned whole as one mention — in particular the spec's
line `"Psalm 110 Garrett , 150 Stanford"`; when pre-marker text is present,
the pre-marker text is separated and the psalm segment is split on commas
(a part starting with a digit begins a new `"Psalm NN"` entry, another part
is appended to the previous entry), as on
`"Crux fidelis MacDonald Psalm 110 Garrett , 150 Stanford"`. -/
theorem psalm_split_needs_nonempty_before :
    (∀ line : Str, jsTrim line = line →
      containsCI (strOf "preacher") (line.drop 1) = false →
      containsCI (strOf "responses") line = false →
      containsCI (strOf "psalm") (line.drop 1) = false →
      containsCI (strOf "hymn") (line.drop 1) = false →
      splitMultiplePieces line = [line]) ∧
    splitMultiplePieces (strOf "Psalm 110 Garrett , 150 Stanford") =
      [strOf "Psalm 110 Garrett , 150 Stanford"] ∧
    splitMultiplePieces
        (strOf "Crux fidelis MacDonald Psalm 110 Garrett , 150 Stanford") =
      [strOf "Crux fidelis MacDonald", strOf "Psalm 110 Garrett",
        strOf "Psalm 150 Stanford"] ∧
    (splitMultiplePieces
        (strOf "Crux fidelis MacDonald Psalm 110 Garrett , 150 Stanford")).map
        normalizePieceTitle =
      [strOf "Crux fidelis — MacDonald", strOf "Psalm 110 — Garrett",
        strOf "Psalm 150 — Stanford"] := by
  refine ⟨?_, by decide, by decide, by decide⟩
  intro line h0 hp hr hps hh
  simp only [splitMultiplePieces, preacher_cut_id hp, h0,
    settingResponses_none hr, pat3Match_none hps, pat4Match_none hh]

/-- Witness for C4 (amended) at the spec's marker-leading line. -/
theorem psalm_split_needs_nonempty_before_witness :
    splitMultiplePieces (strOf "Psalm 110 Garrett , 150 Stanford") =
      [strOf "Psalm 110 Garrett , 150 Stanford"] :=
  psalm_split_needs_nonempty_before.1 (strOf "Psalm 110 Garrett , 150 Stanford")
    (by decide) (by decide) (by decide) (by decide) (by decide)

end Cathedral